import Mathlib

/-!
Shallow embedding of `src/backend/app/pdf_extractor.py` (the page-text to
source-map reconstruction pipeline) together with proofs about it.

Python strings are modelled as Lean `String` (a structure over `List Char`);
the handful of regular expressions used by the code are modelled by
hand-rolled matchers whose leftmost / greedy semantics is spelled out at each
definition.  Python's default whitespace set for `str.strip` and for `\s` is
modelled by its ASCII part (the inputs of interest are ASCII).
-/

/-- ASCII whitespace as stripped by Python `str.strip()` / matched by `\s`. -/
def isPySpace (c : Char) : Bool :=
  c = ' ' || c = '\t' || c = '\n' || c = '\r' || c = '\x0b' || c = '\x0c'

/-- The character class `[A-Za-z0-9_]` of the filename patterns. -/
def isWordChar (c : Char) : Bool := c.isAlpha || c.isDigit || c = '_'

/-- The character class `[a-zA-Z0-9_.]` of the Java package pattern. -/
def isPkgChar (c : Char) : Bool := c.isAlpha || c.isDigit || c = '_' || c = '.'

/-- The character class `[a-zA-Z0-9_\\]` of the PHP namespace pattern. -/
def isNsChar (c : Char) : Bool := c.isAlpha || c.isDigit || c = '_' || c = '\\'

/-- `listStartsWith l s` : does `l` start with `s` (Python `startswith`). -/
def listStartsWith : List Char → List Char → Bool
  | _, [] => true
  | [], _ :: _ => false
  | c :: l, d :: s => c = d && listStartsWith l s

/-- `listEndsWith l s` : does `l` end with `s` (Python `endswith`). -/
def listEndsWith (l s : List Char) : Bool := listStartsWith l.reverse s.reverse

/-- Python `str.strip()` (both ends), on the character list. -/
def pyStripL (l : List Char) : List Char :=
  ((l.dropWhile isPySpace).reverse.dropWhile isPySpace).reverse

/-- Python `str.rstrip()` (right end only), on the character list. -/
def pyRstripL (l : List Char) : List Char :=
  (l.reverse.dropWhile isPySpace).reverse

def pyStrip (s : String) : String := ⟨pyStripL s.data⟩

def pyRstrip (s : String) : String := ⟨pyRstripL s.data⟩

def strStartsWith (s t : String) : Bool := listStartsWith s.data t.data

def strEndsWith (s t : String) : Bool := listEndsWith s.data t.data

def lowerL (l : List Char) : List Char := l.map Char.toLower

/-- Split on `'\n'`, keeping empty fields (so `splitOnNL []` is `[[]]`). -/
def splitOnNL : List Char → List (List Char)
  | [] => [[]]
  | c :: rest =>
    if c = '\n' then [] :: splitOnNL rest
    else
      match splitOnNL rest with
      | [] => [[c]]
      | l :: ls => (c :: l) :: ls

/-- Python `str.splitlines()` for `'\n'`-terminated text: split on `'\n'`
and drop a final empty field (so a trailing newline adds no empty line). -/
def splitlinesL (l : List Char) : List (List Char) :=
  let fs := splitOnNL l
  match fs.getLast? with
  | some lst => if lst = [] then fs.dropLast else fs
  | none => fs

def strSplitlines (s : String) : List String :=
  (splitlinesL s.data).map (fun l => ⟨l⟩)

/-- `"\n".join(...)` on character lists. -/
def joinNL : List (List Char) → List Char
  | [] => []
  | [l] => l
  | l :: l' :: ls => l ++ '\n' :: joinNL (l' :: ls)

/-- `"\n".join(...)` on strings. -/
def intercalateNL (ls : List String) : String := ⟨joinNL (ls.map String.data)⟩

/-- Python `int()` on a string of decimal digits. -/
def digitsToNat (l : List Char) : Nat :=
  l.foldl (fun a c => a * 10 + (c.toNat - 48)) 0

/-!
### Header parser (`_extract_filename_and_page_info`)

`JAVA_FILENAME_PATTERN = ([A-Za-z0-9_]+\.java)` (and `.php`): `re.search`
scans start positions left to right; a match at a position needs a nonempty
maximal word-character run there, immediately followed by the literal
extension (a word character cannot satisfy the `.`-literal, so no shorter run
can succeed by backtracking).  When the run fails, no position inside it can
succeed either, so the scan resumes right after the run.  The fuel argument
only bounds that scan; `length + 1` always suffices.
-/

def searchWordDotExt (ext : List Char) : Nat → List Char → Option (List Char)
  | 0, _ => none
  | _ + 1, [] => none
  | fuel + 1, c :: rest =>
    if isWordChar c then
      let run := c :: rest.takeWhile isWordChar
      let after := rest.dropWhile isWordChar
      if listStartsWith after ext then some (run ++ ext)
      else searchWordDotExt ext fuel after
    else searchWordDotExt ext fuel rest

def searchFilename (ext : List Char) (l : List Char) : Option (List Char) :=
  searchWordDotExt ext (l.length + 1) l

/-- One attempt of `re.search(r"Page\s+(\d+)/(\d+)", line)` anchored at the
current position: literal `Page`, then maximal runs for `\s+`, `(\d+)`,
literal `/`, `(\d+)` (greedy runs; backtracking cannot help since the
classes are disjoint from what follows them). -/
def matchPageAt (l : List Char) : Option (Nat × Nat) :=
  if listStartsWith l ("Page".data) then
    let t := l.drop 4
    if t.takeWhile isPySpace = [] then none
    else
      let t2 := t.dropWhile isPySpace
      let d1 := t2.takeWhile Char.isDigit
      if d1 = [] then none
      else
        match t2.dropWhile Char.isDigit with
        | '/' :: t4 =>
          let d2 := t4.takeWhile Char.isDigit
          if d2 = [] then none else some (digitsToNat d1, digitsToNat d2)
        | _ => none
  else none

/-- Leftmost search for the `Page m/n` token. -/
def searchPageInfo : List Char → Option (Nat × Nat)
  | [] => none
  | c :: rest =>
    match matchPageAt (c :: rest) with
    | some r => some r
    | none => searchPageInfo rest

def pageOrDefault : Option (Nat × Nat) → Nat × Nat
  | some p => p
  | none => (1, 1)

/-- Per-line body of `_extract_filename_and_page_info`: Java pattern first,
then PHP; on a filename hit the same line is searched for `Page m/n`,
defaulting to `(1, 1)`. -/
def lineFilenameAndPage (line : String) : Option (String × Nat × Nat) :=
  match searchFilename (".java".data) line.data with
  | some fn =>
    some (⟨fn⟩, (pageOrDefault (searchPageInfo line.data)).1,
      (pageOrDefault (searchPageInfo line.data)).2)
  | none =>
    match searchFilename (".php".data) line.data with
    | some fn =>
      some (⟨fn⟩, (pageOrDefault (searchPageInfo line.data)).1,
        (pageOrDefault (searchPageInfo line.data)).2)
    | none => none

/-- `_extract_filename_and_page_info`: scan only the first 5 lines. -/
def extract_filename_and_page_info (text : String) : Option (String × Nat × Nat) :=
  ((strSplitlines text).take 5).findSome? lineFilenameAndPage

example : extract_filename_and_page_info "Animal.java\npackage zoo;" =
    some ("Animal.java", 1, 1) := by decide

example : extract_filename_and_page_info "UseTestScore5.java Page 1/1\nx" =
    some ("UseTestScore5.java", 1, 1) := by decide

example : extract_filename_and_page_info "hello Cat_2.php Page 12/34" =
    some ("Cat_2.php", 12, 34) := by decide

example : extract_filename_and_page_info "no source here" = none := by decide

/-!
### Line reconstructor (`_preprocess_page_text`)
-/

/-- The header-skip test of `_preprocess_page_text` (lines 86-99): a line is
header-like when its stripped form starts with `Page ` and contains `/`,
starts with `Printed`, or ends (case-insensitively) with `.java` / `.php`;
the header region is the maximal such prefix of the page's lines. -/
def isHeaderLine (line : String) : Bool :=
  let s := pyStrip line
  (strStartsWith s "Page " && s.data.contains '/') || strStartsWith s "Printed" ||
    listEndsWith (lowerL s.data) (".java".data) ||
    listEndsWith (lowerL s.data) (".php".data)

/-- `re.match(r"^\d+$", stripped)`: nonempty, all digits. -/
def isDigitLine (l : List Char) : Bool := !l.isEmpty && l.all Char.isDigit

/-- `re.match(r"^\s*\d+(\s+)(.*)$", line)`: maximal leading whitespace, a
nonempty digit run, then the captured nonempty whitespace run and the
remainder.  Returns `(spacing, remainder)`. -/
def matchNumbered (l : List Char) : Option (List Char × List Char) :=
  let t1 := l.dropWhile isPySpace
  let ds := t1.takeWhile Char.isDigit
  if ds = [] then none
  else
    let t2 := t1.dropWhile Char.isDigit
    let sp := t2.takeWhile isPySpace
    if sp = [] then none else some (sp, t2.dropWhile isPySpace)

/-- Joining accumulated code fragments (lines 118-122): fragments are
concatenated, inserting one space unless the accumulator is empty or
already ends with a space or tab. -/
def combineParts (parts : List String) : String :=
  parts.foldl
    (fun acc part =>
      if acc = "" then acc ++ part
      else if strEndsWith acc " " || strEndsWith acc "\t" then acc ++ part
      else acc ++ " " ++ part)
    ""

/-- One step of the content-parsing loop (lines 109-141).  State: the
`(line_number, code)` pairs flushed so far, and the pending fragments. -/
def parseLine (st : List (Nat × String) × List String) (line : String) :
    List (Nat × String) × List String :=
  let stripped := pyStrip line
  if isDigitLine stripped.data then
    let n := digitsToNat stripped.data
    if st.2 ≠ [] then (st.1 ++ [(n, combineParts st.2)], [])
    else (st.1 ++ [(n, "")], [])
  else if stripped = "â€¦" ∨ stripped = "..." then st
  else
    match matchNumbered line.data with
    | some (spacing, remainder) =>
      let keep := if spacing.length > 1 then spacing.drop 1 else []
      (st.1, st.2 ++ [⟨keep ++ remainder⟩])
    | none => (st.1, st.2 ++ [line])

/-- Lines 143-148: a trailing unflushed fragment group is assigned the next
line number after the last flushed one (`0` when none), joined with `\n`. -/
def finishParsed (st : List (Nat × String) × List String) : List (Nat × String) :=
  if st.2 = [] then st.1
  else st.1 ++ [((st.1.getLast?.map Prod.fst).getD 0 + 1, intercalateNL st.2)]

/-- Stable insertion by line number (model of Python's stable `sort` with
`key=lambda x: x[0]`): an element is inserted after every earlier element
with a smaller-or-equal key. -/
def insertByPage (x : Nat × String) : List (Nat × String) → List (Nat × String)
  | [] => [x]
  | y :: ys => if x.1 ≤ y.1 then x :: y :: ys else y :: insertByPage x ys

def sortByPage : List (Nat × String) → List (Nat × String)
  | [] => []
  | x :: xs => insertByPage x (sortByPage xs)

/-- Lines 154-163: walk the sorted pairs keeping an `expected_line` counter,
inserting one empty line per missing line number (`n - expected` is `0`
when `n ≤ expected`, like the Python `while` guard). -/
def gapFillAux : Nat → List (Nat × String) → List String
  | _, [] => []
  | expected, (n, code) :: rest =>
    List.replicate (n - expected) "" ++ code :: gapFillAux (n + 1) rest

def isBlankStr (s : String) : Bool := pyStrip s = ""

/-- Lines 166-169: pop leading and trailing fully-blank lines. -/
def trimBlankEnds (l : List String) : List String :=
  ((l.dropWhile isBlankStr).reverse.dropWhile isBlankStr).reverse

/-- Sort, gap-fill and end-trim the parsed `(line_number, code)` pairs
(lines 150-169 of `_preprocess_page_text`). -/
def rebuildLines (parsed : List (Nat × String)) : List String :=
  trimBlankEnds (gapFillAux 1 (sortByPage parsed))

/-- `_preprocess_page_text`. -/
def preprocess_page_text (text : String) : String :=
  if text = "" then ""
  else
    let lines := strSplitlines text
    let content := lines.drop (lines.takeWhile isHeaderLine).length
    intercalateNL (rebuildLines (finishParsed (content.foldl parseLine ([], []))))

example : preprocess_page_text "Animal.java\npackage zoo;\npublic class Animal \x7b\n\x7d" =
    "package zoo;\npublic class Animal \x7b\n\x7d" := by decide

example : preprocess_page_text
    "UseTestScore5.java Page 1/1\nPrinted: 2025/11/11, 2:14:00\n1 package example;\n2 \n3 public class Foo \x7b" =
    "UseTestScore5.java Page 1/1 Printed: 2025/11/11, 2:14:00 package example;\npublic class Foo \x7b" := by
  decide

example : preprocess_page_text "Foo.java\n1 a\n2\n5 b" = "a\nb" := by decide

example : preprocess_page_text "Foo.java\nx\n1\ny\n3" = "x\n\ny" := by decide

/-!
### Code-start detector (`_extract_code_block`)
-/

def javaHints : List String :=
  ["package ", "import ", "public ", "class ", "interface ", "enum ", "@"]

def phpHints : List String :=
  ["<?php", "<?", "namespace ", "use ", "class ", "interface ", "trait ", "function "]

/-- A line at which the code block starts: nonblank after stripping and
starting with a language hint or a comment opener. -/
def isCodeStartLine (hints : List String) (line : String) : Bool :=
  let s := pyStrip line
  if s = "" then false
  else
    hints.any (fun h => strStartsWith s h) || strStartsWith s "/*" ||
      strStartsWith s "//" || strStartsWith s "#" || strStartsWith s "/**"

/-- The suffix of the line list from the first line satisfying `p`
(`lines[code_start_idx:]`). -/
def dropUntil (p : String → Bool) : List String → Option (List String)
  | [] => none
  | l :: rest => if p l then some (l :: rest) else dropUntil p rest

/-- `_extract_code_block`: rstrip every line, find the first hint/comment
line (falling back to the first nonblank line), join the suffix with `\n`
and strip; empty results become `None`. -/
def extract_code_block (text : String) (language : String) : Option String :=
  let lines := (strSplitlines text).map pyRstrip
  let hints := if language = "java" then javaHints else phpHints
  let tail1 :=
    match dropUntil (isCodeStartLine hints) lines with
    | some suf => some suf
    | none => dropUntil (fun l => !isBlankStr l) lines
  match tail1 with
  | none => none
  | some suf =>
    let code := pyStrip (intercalateNL suf)
    if code = "" then none else some code

/-!
### Path resolver (`_extract_java_package`, `_extract_php_namespace`,
`_get_language`, `_build_relative_path`)

`re.search(r"^\s*package\s+([a-zA-Z0-9_.]+)\s*;", code, re.MULTILINE)`:
with `MULTILINE` the `^` anchors at the string start and after every
newline; `\s` (which also matches newlines) and the name class are again
maximal-run matches because backtracking cannot recover from a failure.
The leftmost anchor that matches wins.
-/

/-- Suffixes of `l` starting right after each `'\n'` (the `^` anchors of a
`MULTILINE` search, besides the start of the string). -/
def anchorSuffixes : List Char → List (List Char)
  | [] => []
  | c :: rest =>
    if c = '\n' then rest :: anchorSuffixes rest else anchorSuffixes rest

/-- One anchored attempt: `\s*`, keyword, `\s+`, captured name run, `\s*`,
literal `;`. -/
def matchDeclAt (kw : List Char) (isNameChar : Char → Bool) (l : List Char) :
    Option (List Char) :=
  let t1 := l.dropWhile isPySpace
  if listStartsWith t1 kw then
    let t2 := t1.drop kw.length
    if t2.takeWhile isPySpace = [] then none
    else
      let t3 := t2.dropWhile isPySpace
      let name := t3.takeWhile isNameChar
      if name = [] then none
      else
        match (t3.dropWhile isNameChar).dropWhile isPySpace with
        | ';' :: _ => some name
        | _ => none
  else none

def searchMultiline (m : List Char → Option (List Char)) (l : List Char) :
    Option (List Char) :=
  (l :: anchorSuffixes l).findSome? m

def extract_java_package (code : String) : Option String :=
  (searchMultiline (matchDeclAt ("package".data) isPkgChar) code.data).map
    (fun n => ⟨n⟩)

def extract_php_namespace (code : String) : Option String :=
  (searchMultiline (matchDeclAt ("namespace".data) isNsChar) code.data).map
    (fun n => ⟨n⟩)

def get_language (filename : String) : String :=
  if listEndsWith (lowerL filename.data) (".java".data) then "java"
  else if listEndsWith (lowerL filename.data) (".php".data) then "php"
  else "unknown"

/-- `_build_relative_path`: dots of a Java package (backslashes of a PHP
namespace) become path separators and prefix the filename. -/
def build_relative_path (filename : String) (code : String) : String :=
  if get_language filename = "java" then
    match extract_java_package code with
    | some pkg =>
      ⟨pkg.data.map (fun c => if c = '.' then '/' else c) ++ '/' :: filename.data⟩
    | none => filename
  else if get_language filename = "php" then
    match extract_php_namespace code with
    | some ns =>
      ⟨ns.data.map (fun c => if c = '\\' then '/' else c) ++ '/' :: filename.data⟩
    | none => filename
  else filename

example : extract_java_package "package zoo.farm;\nclass A \x7b\x7d" = some "zoo.farm" := by
  decide

example : extract_java_package "x\n  package a_b;\ny" = some "a_b" := by decide

example : extract_java_package "public class A \x7b\x7d" = none := by decide

example : build_relative_path "Animal.java" "package zoo.farm;" = "zoo/farm/Animal.java" := by
  decide

example : build_relative_path "A.php" "namespace App\\Core;" = "App/Core/A.php" := by decide

/-!
### Multi-page merger (`_merge_multipage_files`)

Python dicts preserve insertion order; `file_pages` is modelled as an
association list in first-encounter order, appending each page to its
filename's group.
-/

/-- Append page `p` to the group of `f`, creating the group at the end when
`f` is new. -/
def addPage (m : List (String × List (Nat × String))) (f : String) (p : Nat × String) :
    List (String × List (Nat × String)) :=
  match m with
  | [] => [(f, [p])]
  | (g, ps) :: rest =>
    if g = f then (g, ps ++ [p]) :: rest else (g, ps) :: addPage rest f p

def groupPages (page_data : List (String × Nat × Nat × String)) :
    List (String × List (Nat × String)) :=
  page_data.foldl (fun m e => addPage m e.1 (e.2.1, e.2.2.2)) []

/-- `_merge_multipage_files`: group by filename, sort each group by
`current_page` (stably), join the texts with one newline. -/
def merge_multipage_files (page_data : List (String × Nat × Nat × String)) :
    List (String × String) :=
  (groupPages page_data).map
    (fun e => (e.1, intercalateNL ((sortByPage e.2).map Prod.snd)))

/-!
### Deduplication and the output map (`extract_sources_from_pages`)
-/

def alistLookup {α : Type} (m : List (String × α)) (k : String) : Option α :=
  match m with
  | [] => none
  | (g, v) :: rest => if g = k then some v else alistLookup rest k

def alistMem {α : Type} (k : String) (m : List (String × α)) : Bool :=
  m.any (fun e => e.1 = k)

/-- `filename.rsplit(".", 1)`: split at the last dot (the loop only reaches
this for filenames that contain a dot). -/
def rsplitDot (l : List Char) : List Char × List Char :=
  match l.reverse.dropWhile (fun c => !(c = '.')) with
  | '.' :: zs => (zs.reverse, (l.reverse.takeWhile (fun c => !(c = '.'))).reverse)
  | _ => (l, [])

def digitChar (n : Nat) : Char := Char.ofNat (48 + n)

/-- Decimal rendering of a natural number (Python `str` on the suffix
counter); the fuel argument bounds the digit count, `n + 1` suffices. -/
def natToDigits : Nat → Nat → List Char
  | 0, _ => []
  | fuel + 1, n =>
    if n < 10 then [digitChar n] else natToDigits fuel (n / 10) ++ [digitChar (n % 10)]

def natToStr (n : Nat) : List Char := natToDigits (n + 1) n

/-- `f"{stem}_{dedupe_suffix}.{ext}"` over the original filename. -/
def suffixedName (filename : String) (k : Nat) : String :=
  ⟨(rsplitDot filename.data).1 ++ '_' :: natToStr k ++ '.' :: (rsplitDot filename.data).2⟩

/-- The collision `while` loop of `extract_sources_from_pages` (lines
313-319): while the candidate path is already a key, increment the suffix
and recompute the path from the renamed filename.  The fuel bounds the
number of membership tests; since the suffixed candidates are pairwise
distinct, `sources.length + 2` can never be exhausted. -/
def dedupLoop (sources : List (String × String)) (filename code : String) :
    Nat → Nat → String → String
  | 0, _, path => path
  | fuel + 1, k, path =>
    if alistMem path sources then
      dedupLoop sources filename code fuel (k + 1)
        (build_relative_path (suffixedName filename (k + 1)) code)
    else path

/-- The per-file body of the second pass of `extract_sources_from_pages`
(lines 301-321), appending to the ordered output map. -/
def processMerged (sources : List (String × String)) (e : String × String) :
    List (String × String) :=
  if get_language e.1 = "unknown" then sources
  else
    match extract_code_block e.2 (get_language e.1) with
    | none => sources
    | some code_block =>
      let final_path := dedupLoop sources e.1 code_block (sources.length + 2) 1
        (build_relative_path e.1 code_block)
      sources ++
        [(final_path, if strEndsWith code_block "\n" then code_block
          else code_block ++ "\n")]

/-- The first pass of `extract_sources_from_pages` (lines 281-293): skip
empty pages, pages with no recognizable filename and pages whose cleaned
text is empty; a parsed page index of `0` falls back to `1` (Python's
`current_page or 1`). -/
def pageData (page_texts : List String) : List (String × Nat × Nat × String) :=
  page_texts.filterMap (fun text =>
    if text = "" then none
    else
      match extract_filename_and_page_info text with
      | none => none
      | some (filename, cur, tot) =>
        let cleaned := preprocess_page_text text
        if cleaned = "" then none
        else some (filename, (if cur = 0 then 1 else cur),
          (if tot = 0 then 1 else tot), cleaned))

/-- `extract_sources_from_pages`. -/
def extract_sources_from_pages (page_texts : List String) : List (String × String) :=
  (merge_multipage_files (pageData page_texts)).foldl processMerged []

example : extract_sources_from_pages ["Animal.java\npackage zoo;\npublic class Animal \x7b\n\x7d"] =
    [("zoo/Animal.java", "package zoo;\npublic class Animal \x7b\n\x7d\n")] := by decide

example : extract_sources_from_pages
    ["Cat.java\nimport java.util.List;\nclass Cat \x7b\x7d",
     "Cat.java\nimport java.util.List;\nclass Cat \x7b\x7d"] =
    [("Cat.java",
      "import java.util.List;\nclass Cat \x7b\x7d\nimport java.util.List;\nclass Cat \x7b\x7d\n")] := by
  decide

/-!
### `parse_pdf_bytes` and the provider chain

The three extraction backends are opaque to the core; each is modelled as a
function from the PDF bytes to either a raised exception (`Except.error`
with its message) or the list of per-page texts.  `py_pdfplumber` mirrors
`_extract_texts_with_pdfplumber`, which is defined in the module but never
called by `parse_pdf_bytes`.
-/

structure Providers where
  py_pymupdf : List Nat → Except String (List String)
  py_pdfium : List Nat → Except String (List String)
  py_pdfplumber : List Nat → Except String (List String)

/-- The failures `parse_pdf_bytes` can raise: `ValueError("PDF file is
empty")`, `RuntimeError("Failed to extract PDF text using both PyMuPDF and
pypdfium2")`, or the re-raised pypdfium2 exception (line 383's bare
`raise`). -/
inductive PdfError where
  | inputError
  | extractionError
  | providerError (msg : String)
deriving DecidableEq

/-- Lines 385-391: drop the cover page (all pages when at most one exists)
and run `extract_sources_from_pages`. -/
def pdfPipelineTail (texts : List String) : List (String × String) :=
  extract_sources_from_pages (if 1 < texts.length then texts.drop 1 else [])

/-- `parse_pdf_bytes`: reject empty bytes; try PyMuPDF; when it raises or
returns no non-blank page text, try pypdfium2; a pypdfium2 failure becomes
the combined extraction error when PyMuPDF had raised, else is re-raised. -/
def parse_pdf_bytes (prov : Providers) (pdf_bytes : List Nat) :
    Except PdfError (List (String × String)) :=
  if pdf_bytes = [] then .error .inputError
  else
    match prov.py_pymupdf pdf_bytes with
    | .ok texts =>
      if texts.all (fun t => isBlankStr t) then
        match prov.py_pdfium pdf_bytes with
        | .ok texts2 => .ok (pdfPipelineTail texts2)
        | .error e => .error (.providerError e)
      else .ok (pdfPipelineTail texts)
    | .error _ =>
      match prov.py_pdfium pdf_bytes with
      | .ok texts2 => .ok (pdfPipelineTail texts2)
      | .error _ => .error .extractionError

/-!
## Claims
-/

/-- C6: processing the single page
`"Animal.java\npackage zoo;\npublic class Animal {\n}"` yields a map with
the key `"zoo/Animal.java"` bound to
`"package zoo;\npublic class Animal {\n}\n"`: the package declaration is
found at a line start, its dots become path separators prefixing the header
filename, and one newline is appended. -/
theorem claim_c6_animal_page :
    alistLookup
      (extract_sources_from_pages
        ["Animal.java\npackage zoo;\npublic class Animal \x7b\n\x7d"])
      "zoo/Animal.java" =
      some "package zoo;\npublic class Animal \x7b\n\x7d\n" := by decide

/-- C1 (evaluation at the failing input): two pages that both carry the
header filename `Cat.java` and no `Page m/n` token are grouped by filename
and merged into a single entry whose body is the two blocks joined by a
newline; the final map has the single key `"Cat.java"` and no
`"Cat_2.java"`, contradicting the claimed `{"Cat.java", "Cat_2.java"}`
(and the repository's own test `test_extract_sources_from_pages_generates_unique_names`). -/
theorem claim_c1_duplicate_pages_merge_instead_of_dedup :
    (extract_sources_from_pages
        ["Cat.java\nimport java.util.List;\nclass Cat \x7b\x7d",
         "Cat.java\nimport java.util.List;\nclass Cat \x7b\x7d"]).map Prod.fst =
      ["Cat.java"] ∧
    alistMem "Cat_2.java"
      (extract_sources_from_pages
        ["Cat.java\nimport java.util.List;\nclass Cat \x7b\x7d",
         "Cat.java\nimport java.util.List;\nclass Cat \x7b\x7d"]) = false := by
  constructor
  · decide
  · decide

/-- C3 (evaluation at the failing input): for the page whose header line is
`"UseTestScore5.java Page 1/1"`, the header-skip test of
`_preprocess_page_text` recognizes none of its patterns on that combined
line (it neither starts with `Page ` nor ends with `.java`), so the header
and timestamp lines are glued into the line-2 fragment together with
`package example;`, and the code-start trim then drops that line: the
resulting body is `"public class Foo {"`, not a body starting with
`"package example;\n\npublic class Foo {"` as the claim (and the
repository's own test
`test_extract_sources_from_pages_strips_headers_and_line_numbers`)
states. -/
theorem claim_c3_combined_header_line_not_stripped :
    extract_sources_from_pages
        ["UseTestScore5.java Page 1/1\nPrinted: 2025/11/11, 2:14:00\n1 package example;\n2 \n3 public class Foo \x7b"] =
      [("UseTestScore5.java", "public class Foo \x7b\n")] ∧
    strStartsWith
      (preprocess_page_text
        "UseTestScore5.java Page 1/1\nPrinted: 2025/11/11, 2:14:00\n1 package example;\n2 \n3 public class Foo \x7b")
      "package example;" = false := by
  constructor
  · decide
  · decide

/-- C8: called on empty PDF bytes, `parse_pdf_bytes` fails with the
input error (`ValueError("PDF file is empty")`), a failure distinct from
both extraction-provider failures, and no provider is invoked: the result
is the same whatever the three providers do. -/
theorem claim_c8_empty_bytes_input_error (prov prov' : Providers) :
    parse_pdf_bytes prov [] = .error .inputError ∧
    parse_pdf_bytes prov [] = parse_pdf_bytes prov' [] ∧
    PdfError.inputError ≠ PdfError.extractionError ∧
    (∀ m : String, PdfError.inputError ≠ PdfError.providerError m) := by
  refine ⟨rfl, rfl, by simp, fun m => by simp⟩

/-- C9: when the parsed content of a page is (nonblank) code at printed
line numbers 1 and 3 with no entry for line 2, the reconstructed block is
exactly three lines whose middle line is the empty string: one blank line
is restored in the gap. -/
theorem claim_c9_gap_recovery (a b : String)
    (ha : isBlankStr a = false) (hb : isBlankStr b = false) :
    rebuildLines [(1, a), (3, b)] = [a, "", b] ∧
    (rebuildLines [(1, a), (3, b)]).length = 3 ∧
    (rebuildLines [(1, a), (3, b)]).get? 1 = some "" := by
  have h : rebuildLines [(1, a), (3, b)] = [a, "", b] := by
    simp [rebuildLines, sortByPage, insertByPage, gapFillAux, trimBlankEnds,
      List.dropWhile, ha, hb]
  exact ⟨h, by simp [h], by simp [h]⟩

theorem claim_c9_gap_recovery_witness :
    isBlankStr "int x;" = false ∧ isBlankStr "int y;" = false ∧
    (rebuildLines [(1, "int x;"), (3, "int y;")] = ["int x;", "", "int y;"] ∧
      (rebuildLines [(1, "int x;"), (3, "int y;")]).length = 3 ∧
      (rebuildLines [(1, "int x;"), (3, "int y;")]).get? 1 = some "") :=
  ⟨by decide, by decide,
    claim_c9_gap_recovery "int x;" "int y;" (by decide) (by decide)⟩

/-- C7: once text extraction has succeeded (PyMuPDF returned pages with
some non-blank text), the first page is discarded as a cover page before
reconstruction — the result is the source map of the remaining pages — and
when exactly one page was returned no pages remain: the pipeline returns
an empty map, not an error. -/
theorem claim_c7_cover_page_skip (prov : Providers) (b : List Nat)
    (t : String) (rest : List String) (hb : b ≠ [])
    (hok : prov.py_pymupdf b = .ok (t :: rest))
    (hnb : (t :: rest).all (fun s => isBlankStr s) = false) :
    pdfPipelineTail (t :: rest) = extract_sources_from_pages rest ∧
    parse_pdf_bytes prov b = .ok (extract_sources_from_pages rest) ∧
    (rest = [] → parse_pdf_bytes prov b = .ok []) := by
  have htail : pdfPipelineTail (t :: rest) = extract_sources_from_pages rest := by
    cases rest with
    | nil => simp [pdfPipelineTail]
    | cons r rs =>
      have hlen : 1 < (t :: r :: rs).length := by simp
      simp [pdfPipelineTail, hlen]
  have h : parse_pdf_bytes prov b = .ok (pdfPipelineTail (t :: rest)) := by
    unfold parse_pdf_bytes
    rw [if_neg hb, hok]
    simp [hnb]
  refine ⟨htail, by rw [h, htail], fun hr => ?_⟩
  rw [h, htail, hr]
  rfl

theorem claim_c7_cover_page_skip_witness :
    ([0] : List Nat) ≠ [] ∧
    (Providers.mk (fun _ => .ok ["cover page", "Animal.java\npackage zoo;\npublic class Animal \x7b\n\x7d"])
        (fun _ => .error "unused") (fun _ => .error "unused")).py_pymupdf [0] =
      .ok ["cover page", "Animal.java\npackage zoo;\npublic class Animal \x7b\n\x7d"] ∧
    (["cover page", "Animal.java\npackage zoo;\npublic class Animal \x7b\n\x7d"].all
        (fun s => isBlankStr s) = false) ∧
    parse_pdf_bytes
        (Providers.mk (fun _ => .ok ["cover page", "Animal.java\npackage zoo;\npublic class Animal \x7b\n\x7d"])
          (fun _ => .error "unused") (fun _ => .error "unused")) [0] =
      .ok (extract_sources_from_pages
        ["Animal.java\npackage zoo;\npublic class Animal \x7b\n\x7d"]) :=
  ⟨by decide, rfl, by decide,
    (claim_c7_cover_page_skip
      (Providers.mk
        (fun _ => .ok ["cover page", "Animal.java\npackage zoo;\npublic class Animal \x7b\n\x7d"])
        (fun _ => .error "unused") (fun _ => .error "unused"))
      [0] "cover page"
      ["Animal.java\npackage zoo;\npublic class Animal \x7b\n\x7d"]
      (by decide) rfl (by decide)).2.1⟩

/-- C4 (counterexample): the claimed three-provider policy is false.  With
PyMuPDF and pypdfium2 both raising while the pdfplumber extractor would
return non-blank page text, the whole operation still fails with the
extraction error: the third backend exists in the module but is never
consulted, so "only when all of them fail does the operation fail" does
not hold. -/
theorem claim_c4_third_provider_never_tried :
    (Providers.mk (fun _ => .error "mu") (fun _ => .error "pd")
        (fun _ => .ok ["package a;\nclass A \x7b\x7d"])).py_pdfplumber [0] =
      .ok ["package a;\nclass A \x7b\x7d"] ∧
    (["package a;\nclass A \x7b\x7d"].all (fun s => isBlankStr s)) = false ∧
    parse_pdf_bytes
        (Providers.mk (fun _ => .error "mu") (fun _ => .error "pd")
          (fun _ => .ok ["package a;\nclass A \x7b\x7d"])) [0] =
      .error .extractionError :=
  ⟨rfl, by decide, rfl⟩

/-- C4 (amended): `parse_pdf_bytes` tries PyMuPDF; if it raises or returns
no non-blank page text it tries pypdfium2 — the pdfplumber extractor is
defined but never invoked, so the result never depends on it — and the
operation fails, with an error distinct from the empty-input error, exactly
when that second provider also raises. -/
theorem claim_c4_two_provider_policy
    (A B f g : List Nat → Except String (List String)) (b : List Nat)
    (hb : b ≠ []) :
    parse_pdf_bytes ⟨A, B, f⟩ b = parse_pdf_bytes ⟨A, B, g⟩ b ∧
    (∀ e e', A b = .error e → B b = .error e' →
      parse_pdf_bytes ⟨A, B, f⟩ b = .error .extractionError) ∧
    (∀ ts e', A b = .ok ts → ts.all (fun s => isBlankStr s) = true →
      B b = .error e' →
      parse_pdf_bytes ⟨A, B, f⟩ b = .error (.providerError e')) ∧
    (∀ ts, A b = .ok ts → ts.all (fun s => isBlankStr s) = false →
      parse_pdf_bytes ⟨A, B, f⟩ b = .ok (pdfPipelineTail ts)) ∧
    (∀ e ts', A b = .error e → B b = .ok ts' →
      parse_pdf_bytes ⟨A, B, f⟩ b = .ok (pdfPipelineTail ts')) ∧
    (∀ ts ts', A b = .ok ts → ts.all (fun s => isBlankStr s) = true →
      B b = .ok ts' →
      parse_pdf_bytes ⟨A, B, f⟩ b = .ok (pdfPipelineTail ts')) := by
  refine ⟨?_, ?_, ?_, ?_, ?_, ?_⟩
  · simp [parse_pdf_bytes, hb]
  · intro e e' hA hB
    simp [parse_pdf_bytes, hb, hA, hB]
  · intro ts e' hA hblank hB
    simp [parse_pdf_bytes, hb, hA, hblank, hB]
  · intro ts hA hblank
    simp [parse_pdf_bytes, hb, hA, hblank]
  · intro e ts' hA hB
    simp [parse_pdf_bytes, hb, hA, hB]
  · intro ts ts' hA hblank hB
    simp [parse_pdf_bytes, hb, hA, hblank, hB]

/-- "Ends with exactly one trailing newline": the last character is `'\n'`
and the character before it (when present) is not. -/
def endsWithExactlyOneNewline (s : String) : Bool :=
  match s.data.reverse with
  | [] => false
  | c :: rest =>
    if c = '\n' then
      match rest with
      | [] => true
      | d :: _ => !(d = '\n')
    else false

theorem pyStripL_getLast?_not_space (l : List Char) (c : Char)
    (h : (pyStripL l).getLast? = some c) : isPySpace c = false := by
  unfold pyStripL at h
  rw [List.getLast?_reverse] at h
  have hd := List.head?_dropWhile_not isPySpace ((l.dropWhile isPySpace).reverse)
  rw [h] at hd
  exact hd

/-- A successful `_extract_code_block` result is the (nonempty) `strip` of
some character list. -/
theorem extract_code_block_shape (t lang cb : String)
    (h : extract_code_block t lang = some cb) :
    ∃ m : List Char, cb = ⟨pyStripL m⟩ ∧ pyStripL m ≠ [] := by
  simp only [extract_code_block] at h
  split at h
  · exact absurd h (by simp)
  · split at h
    · exact absurd h (by simp)
    · rename_i suf hsome hne
      refine ⟨(intercalateNL suf).data, (Option.some.inj h).symm, fun hnil => hne ?_⟩
      show pyStrip (intercalateNL suf) = ""
      unfold pyStrip
      rw [hnil]

/-- The value appended for a code block that is a nonempty `strip`: the
code does not already end with a newline, and after appending one it ends
with exactly one. -/
theorem strip_value_endsOne (m : List Char) (hne : pyStripL m ≠ []) :
    strEndsWith ⟨pyStripL m⟩ "\n" = false ∧
    endsWithExactlyOneNewline ((⟨pyStripL m⟩ : String) ++ "\n") = true := by
  obtain ⟨c, hc⟩ : ∃ c, (pyStripL m).getLast? = some c := by
    cases h : (pyStripL m).getLast? with
    | none => exact absurd (List.getLast?_eq_none_iff.mp h) hne
    | some c => exact ⟨c, rfl⟩
  have hcs := pyStripL_getLast?_not_space m c hc
  have hcn : ¬(c = '\n') := by
    intro hcEq
    rw [hcEq] at hcs
    simp [isPySpace] at hcs
  obtain ⟨l', hl'⟩ := List.getLast?_eq_some_iff.mp hc
  constructor
  · show listEndsWith (String.data ⟨pyStripL m⟩) ("\n".data) = false
    show listStartsWith (pyStripL m).reverse ("\n".data.reverse) = false
    rw [hl']
    simp [listStartsWith, hcn]
  · have hdata : ((⟨pyStripL m⟩ : String) ++ "\n").data = pyStripL m ++ ['\n'] :=
      String.data_append _ _
    unfold endsWithExactlyOneNewline
    rw [hdata, hl']
    simp [listStartsWith, hcn]

/-- Membership in one `processMerged` step: an element was already present
or carries a value built from a successful `_extract_code_block`. -/
theorem mem_processMerged (s : List (String × String)) (e x : String × String)
    (hx : x ∈ processMerged s e) :
    x ∈ s ∨ ∃ cb : String,
      extract_code_block e.2 (get_language e.1) = some cb ∧
      x.2 = (if strEndsWith cb "\n" then cb else cb ++ "\n") := by
  unfold processMerged at hx
  split at hx
  · exact Or.inl hx
  · split at hx
    · exact Or.inl hx
    · rename_i cb hcb
      rcases List.mem_append.mp hx with hmem | hmem
      · exact Or.inl hmem
      · right
        refine ⟨cb, hcb, ?_⟩
        have hx2 := List.mem_singleton.mp hmem
        rw [hx2]

theorem foldl_processMerged_endsOne (ms : List (String × String)) :
    ∀ init : List (String × String),
      (∀ x ∈ init, endsWithExactlyOneNewline x.2 = true) →
      ∀ x ∈ ms.foldl processMerged init, endsWithExactlyOneNewline x.2 = true := by
  induction ms with
  | nil => intro init hinit x hx; exact hinit x hx
  | cons e rest ih =>
    intro init hinit x hx
    refine ih (processMerged init e) ?_ x hx
    intro y hy
    rcases mem_processMerged init e y hy with hmem | ⟨cb, hcb, hval⟩
    · exact hinit y hmem
    · obtain ⟨m, hm, hne⟩ := extract_code_block_shape _ _ _ hcb
      obtain ⟨hnotNL, hone⟩ := strip_value_endsOne m hne
      rw [hval, hm, hnotNL]
      simpa using hone

/-- C5: every value stored in the final source map ends with exactly one
trailing newline, for every input to the pipeline: extracted code blocks
are stripped of surrounding whitespace (so never end with a newline
themselves) and a single newline is appended on insertion. -/
theorem claim_c5_values_end_with_one_newline (pts : List String) (p v : String)
    (h : (p, v) ∈ extract_sources_from_pages pts) :
    endsWithExactlyOneNewline v = true := by
  have := foldl_processMerged_endsOne (merge_multipage_files (pageData pts)) []
    (by intro x hx; exact absurd hx (List.not_mem_nil x)) (p, v) h
  exact this

theorem claim_c5_values_end_with_one_newline_witness :
    ("zoo/Animal.java", "package zoo;\npublic class Animal \x7b\n\x7d\n") ∈
      extract_sources_from_pages
        ["Animal.java\npackage zoo;\npublic class Animal \x7b\n\x7d"] ∧
    endsWithExactlyOneNewline "package zoo;\npublic class Animal \x7b\n\x7d\n" = true :=
  ⟨by decide,
    claim_c5_values_end_with_one_newline
      ["Animal.java\npackage zoo;\npublic class Animal \x7b\n\x7d"]
      "zoo/Animal.java" "package zoo;\npublic class Animal \x7b\n\x7d\n" (by decide)⟩

/-!
### Merge order-invariance (C2)
-/

/-- The `(current_page, cleaned_text)` pages of filename `f`, in the order
the pages were fed to the pipeline. -/
def groupOf (f : String) (pd : List (String × Nat × Nat × String)) : List (Nat × String) :=
  pd.filterMap (fun e => if e.1 = f then some (e.2.1, e.2.2.2) else none)

theorem insertByPage_perm (x : Nat × String) :
    ∀ l : List (Nat × String), (insertByPage x l).Perm (x :: l) := by
  intro l
  induction l with
  | nil => exact List.Perm.refl _
  | cons y ys ih =>
    unfold insertByPage
    split
    · exact List.Perm.refl _
    · exact (ih.cons y).trans (List.Perm.swap x y ys)

theorem sortByPage_perm : ∀ l : List (Nat × String), (sortByPage l).Perm l := by
  intro l
  induction l with
  | nil => exact List.Perm.refl _
  | cons x xs ih => exact (insertByPage_perm x (sortByPage xs)).trans (ih.cons x)

theorem insertByPage_sorted (x : Nat × String) :
    ∀ l : List (Nat × String), l.Pairwise (fun a b => a.1 ≤ b.1) →
      (insertByPage x l).Pairwise (fun a b => a.1 ≤ b.1) := by
  intro l
  induction l with
  | nil => intro _; simp [insertByPage]
  | cons y ys ih =>
    intro h
    rw [List.pairwise_cons] at h
    unfold insertByPage
    split
    · rename_i hxy
      refine List.Pairwise.cons ?_ (List.Pairwise.cons h.1 h.2)
      intro z hz
      rcases List.mem_cons.mp hz with rfl | hz'
      · exact hxy
      · exact le_trans hxy (h.1 z hz')
    · rename_i hxy
      refine List.Pairwise.cons ?_ (ih h.2)
      intro z hz
      rcases List.mem_cons.mp ((insertByPage_perm x ys).mem_iff.mp hz) with rfl | hz'
      · exact le_of_lt (lt_of_not_le hxy)
      · exact h.1 z hz'

theorem sortByPage_sorted :
    ∀ l : List (Nat × String), (sortByPage l).Pairwise (fun a b => a.1 ≤ b.1) := by
  intro l
  induction l with
  | nil => simp [sortByPage]
  | cons x xs ih => exact insertByPage_sorted x (sortByPage xs) ih

theorem pairwise_lt_of_sorted_nodup (l : List (Nat × String))
    (hs : l.Pairwise (fun a b => a.1 ≤ b.1)) (hn : (l.map Prod.fst).Nodup) :
    l.Pairwise (fun a b => a.1 < b.1) := by
  have hne : l.Pairwise (fun a b => a.1 ≠ b.1) := List.pairwise_map.mp hn
  exact (hs.and hne).imp (fun h => lt_of_le_of_ne h.1 h.2)

/-- Two strictly-increasing (by page index) permutations of each other are
equal. -/
theorem sorted_strict_unique (l₁ l₂ : List (Nat × String)) (hp : l₁.Perm l₂)
    (h₁ : l₁.Pairwise (fun a b => a.1 < b.1))
    (h₂ : l₂.Pairwise (fun a b => a.1 < b.1)) : l₁ = l₂ :=
  have hanti : IsAntisymm (Nat × String) (fun a b => a.1 < b.1) :=
    ⟨fun _ _ h h' => absurd (lt_trans h h') (lt_irrefl _)⟩
  @List.eq_of_perm_of_sorted _ _ hanti _ _ hp h₁ h₂

theorem alistLookup_addPage (m : List (String × List (Nat × String)))
    (g f : String) (p : Nat × String) :
    alistLookup (addPage m g p) f =
      if f = g then some (((alistLookup m f).getD []) ++ [p])
      else alistLookup m f := by
  induction m with
  | nil =>
    by_cases hfg : f = g
    · subst hfg; simp [addPage, alistLookup]
    · simp [addPage, alistLookup, hfg, Ne.symm hfg]
  | cons e rest ih =>
    obtain ⟨k, ps⟩ := e
    by_cases hkg : k = g
    · subst hkg
      by_cases hkf : k = f
      · subst hkf
        simp [addPage, alistLookup]
      · simp [addPage, alistLookup, hkf, Ne.symm hkf]
    · by_cases hkf : k = f
      · subst hkf
        simp [addPage, alistLookup, hkg, Ne.symm hkg]
      · simp [addPage, alistLookup, hkg, hkf, ih]

theorem alistLookup_groupPages_aux (pd : List (String × Nat × Nat × String)) :
    ∀ (m : List (String × List (Nat × String))) (f : String),
      alistLookup (pd.foldl (fun m e => addPage m e.1 (e.2.1, e.2.2.2)) m) f =
        match alistLookup m f with
        | some ps => some (ps ++ groupOf f pd)
        | none => if groupOf f pd = [] then none else some (groupOf f pd) := by
  induction pd with
  | nil =>
    intro m f
    cases h : alistLookup m f <;> simp [groupOf, h]
  | cons e rest ih =>
    intro m f
    rw [List.foldl_cons, ih, alistLookup_addPage]
    by_cases hef : e.1 = f
    · have hfe : f = e.1 := hef.symm
      rw [if_pos hfe]
      have hg : groupOf f (e :: rest) = (e.2.1, e.2.2.2) :: groupOf f rest := by
        simp [groupOf, List.filterMap_cons, hef]
      rw [hg]
      cases alistLookup m f <;> simp
    · have hfe : ¬(f = e.1) := fun h => hef h.symm
      rw [if_neg hfe]
      have hg : groupOf f (e :: rest) = groupOf f rest := by
        simp [groupOf, List.filterMap_cons, hef]
      rw [hg]

theorem alistLookup_merge (pd : List (String × Nat × Nat × String)) (f : String) :
    alistLookup (merge_multipage_files pd) f =
      if groupOf f pd = [] then none
      else some (intercalateNL ((sortByPage (groupOf f pd)).map Prod.snd)) := by
  have hmap : ∀ (m : List (String × List (Nat × String))),
      alistLookup
          (m.map (fun e => (e.1, intercalateNL ((sortByPage e.2).map Prod.snd)))) f =
        (alistLookup m f).map (fun ps => intercalateNL ((sortByPage ps).map Prod.snd)) := by
    intro m
    induction m with
    | nil => simp [alistLookup]
    | cons e rest ih =>
      by_cases hef : e.1 = f
      · simp [alistLookup, hef]
      · simp [alistLookup, hef, ih]
  unfold merge_multipage_files groupPages
  rw [hmap, alistLookup_groupPages_aux]
  by_cases hg : groupOf f pd = [] <;> simp [alistLookup, hg]

/-- C2: if the pages sharing filename `f` carry strictly increasing
`current_page` values, the merged body for `f` is the reconstructed blocks
joined (in that ascending order) by single newlines, and feeding the pages
to the pipeline in any permuted order yields the same merged body. -/
theorem claim_c2_merge_order_invariant (pts pts' : List String) (f : String)
    (hperm : pts.Perm pts')
    (hne : groupOf f (pageData pts) ≠ [])
    (hinc : (groupOf f (pageData pts)).Pairwise (fun a b => a.1 < b.1)) :
    alistLookup (merge_multipage_files (pageData pts')) f =
      some (intercalateNL ((groupOf f (pageData pts)).map Prod.snd)) := by
  have hpd : (pageData pts).Perm (pageData pts') := hperm.filterMap _
  have hgperm : (groupOf f (pageData pts)).Perm (groupOf f (pageData pts')) :=
    hpd.filterMap _
  have hne' : groupOf f (pageData pts') ≠ [] := by
    intro h0
    rw [h0] at hgperm
    exact hne hgperm.eq_nil
  have hsorted : sortByPage (groupOf f (pageData pts')) = groupOf f (pageData pts) := by
    apply sorted_strict_unique
    · exact (sortByPage_perm _).trans hgperm.symm
    · apply pairwise_lt_of_sorted_nodup _ (sortByPage_sorted _)
      have hn : ((groupOf f (pageData pts)).map Prod.fst).Nodup :=
        List.pairwise_map.mpr (hinc.imp (fun h => Nat.ne_of_lt h))
      exact (((sortByPage_perm _).trans hgperm.symm).map Prod.fst).nodup_iff.mpr hn
    · exact hinc
  rw [alistLookup_merge, if_neg hne', hsorted]

theorem claim_c2_merge_order_invariant_witness :
    ("Multi.java Page 1/2\n1 package m;" :: "Multi.java Page 2/2\n1 class M \x7b\x7d" :: []).Perm
      ["Multi.java Page 2/2\n1 class M \x7b\x7d", "Multi.java Page 1/2\n1 package m;"] ∧
    groupOf "Multi.java"
        (pageData ["Multi.java Page 1/2\n1 package m;", "Multi.java Page 2/2\n1 class M \x7b\x7d"]) ≠ [] ∧
    (groupOf "Multi.java"
        (pageData ["Multi.java Page 1/2\n1 package m;", "Multi.java Page 2/2\n1 class M \x7b\x7d"])).Pairwise
      (fun a b => a.1 < b.1) ∧
    alistLookup
        (merge_multipage_files
          (pageData ["Multi.java Page 2/2\n1 class M \x7b\x7d", "Multi.java Page 1/2\n1 package m;"]))
        "Multi.java" =
      some (intercalateNL
        ((groupOf "Multi.java"
          (pageData ["Multi.java Page 1/2\n1 package m;", "Multi.java Page 2/2\n1 class M \x7b\x7d"])).map
          Prod.snd)) :=
  ⟨by decide, by decide, by decide,
    claim_c2_merge_order_invariant
      ["Multi.java Page 1/2\n1 package m;", "Multi.java Page 2/2\n1 class M \x7b\x7d"]
      ["Multi.java Page 2/2\n1 class M \x7b\x7d", "Multi.java Page 1/2\n1 package m;"]
      "Multi.java" (by decide) (by decide) (by decide)⟩

theorem claim_c4_two_provider_policy_witness :
    ([0] : List Nat) ≠ [] ∧
    parse_pdf_bytes
        ⟨fun _ => .error "mu", fun _ => .ok ["package a;"], fun _ => .ok []⟩ [0] =
      parse_pdf_bytes
        ⟨fun _ => .error "mu", fun _ => .ok ["package a;"], fun _ => .error "y"⟩ [0] :=
  ⟨by decide,
    (claim_c4_two_provider_policy (fun _ => .error "mu")
      (fun _ => .ok ["package a;"]) (fun _ => .ok []) (fun _ => .error "y")
      [0] (by decide)).1⟩

/-!
### Shape of the output keys (C10)
-/

/-- The final path component of a relative path (the part after the last
`'/'`). -/
def lastComp (l : List Char) : List Char :=
  (l.reverse.takeWhile (fun c => !(c = '/'))).reverse

/-- `l` is `<stem><ext>` for a nonempty all-word-character stem. -/
def goodStemExt (l ext : List Char) : Bool :=
  listEndsWith l ext && !(l.take (l.length - ext.length)).isEmpty &&
    (l.take (l.length - ext.length)).all isWordChar

/-- A valid leaf filename: word-character stem plus `.java` or `.php`. -/
def validLeafName (l : List Char) : Bool :=
  goodStemExt l (".java".data) || goodStemExt l (".php".data)

/-- A filename as produced by the header patterns: a nonempty word-character
run followed by a literal `.java` or `.php`. -/
def GoodFilename (fn : String) : Prop :=
  ∃ run ext, fn.data = run ++ ext ∧ run ≠ [] ∧ run.all isWordChar = true ∧
    (ext = (".java").data ∨ ext = (".php").data)

theorem takeWhile_append_of_all {α : Type} (p : α → Bool) (x : α) (m : List α) :
    ∀ l : List α, (∀ c ∈ l, p c = true) → p x = false →
      (l ++ x :: m).takeWhile p = l := by
  intro l
  induction l with
  | nil => intro _ hx; simp [List.takeWhile_cons, hx]
  | cons a t ih =>
    intro hl hx
    have ha : p a = true := hl a (List.mem_cons_self a t)
    simp only [List.cons_append, List.takeWhile_cons, ha, if_true]
    rw [ih (fun c hc => hl c (List.mem_cons_of_mem a hc)) hx]

theorem dropWhile_append_of_all {α : Type} (p : α → Bool) (x : α) (m : List α) :
    ∀ l : List α, (∀ c ∈ l, p c = true) → p x = false →
      (l ++ x :: m).dropWhile p = x :: m := by
  intro l
  induction l with
  | nil => intro _ hx; simp [List.dropWhile_cons, hx]
  | cons a t ih =>
    intro hl hx
    have ha : p a = true := hl a (List.mem_cons_self a t)
    simp only [List.cons_append, List.dropWhile_cons, ha, if_true]
    exact ih (fun c hc => hl c (List.mem_cons_of_mem a hc)) hx

theorem takeWhile_of_all {α : Type} (p : α → Bool) :
    ∀ l : List α, (∀ c ∈ l, p c = true) → l.takeWhile p = l := by
  intro l
  induction l with
  | nil => intro _; rfl
  | cons a t ih =>
    intro hl
    have ha : p a = true := hl a (List.mem_cons_self a t)
    simp only [List.takeWhile_cons, ha, if_true]
    rw [ih (fun c hc => hl c (List.mem_cons_of_mem a hc))]

theorem listStartsWith_append (s t : List Char) :
    listStartsWith (s ++ t) s = true := by
  induction s with
  | nil => cases t <;> rfl
  | cons c s ih => simp [listStartsWith, ih]

/-- Every filename found by the filename-pattern search is a nonempty
word run followed by the extension. -/
theorem searchWordDotExt_shape (ext : List Char) :
    ∀ (fuel : Nat) (l fn : List Char), searchWordDotExt ext fuel l = some fn →
      ∃ run, fn = run ++ ext ∧ run ≠ [] ∧ run.all isWordChar = true := by
  intro fuel
  induction fuel with
  | zero => intro l fn h; simp [searchWordDotExt] at h
  | succ fuel ih =>
    intro l fn h
    match l with
    | [] => simp [searchWordDotExt] at h
    | c :: rest =>
      simp only [searchWordDotExt] at h
      split at h
      · split at h
        · rename_i hw _
          refine ⟨c :: rest.takeWhile isWordChar, (Option.some.inj h).symm, by simp, ?_⟩
          simp only [List.all_cons, hw, Bool.true_and]
          rw [List.all_eq_true]
          intro x hx
          exact List.mem_takeWhile_imp hx
        · exact ih _ _ h
      · exact ih _ _ h

theorem lineFilenameAndPage_shape (line fn : String) (c t : Nat)
    (h : lineFilenameAndPage line = some (fn, c, t)) : GoodFilename fn := by
  unfold lineFilenameAndPage at h
  split at h
  · rename_i fnl hjava
    obtain ⟨run, hrun, hne, hall⟩ := searchWordDotExt_shape _ _ _ _ hjava
    have hfn : fn = ⟨fnl⟩ := (congrArg Prod.fst (Option.some.inj h)).symm
    exact ⟨run, (".java").data, by rw [hfn, hrun], hne, hall, Or.inl rfl⟩
  · split at h
    · rename_i fnl hphp
      obtain ⟨run, hrun, hne, hall⟩ := searchWordDotExt_shape _ _ _ _ hphp
      have hfn : fn = ⟨fnl⟩ := (congrArg Prod.fst (Option.some.inj h)).symm
      exact ⟨run, (".php").data, by rw [hfn, hrun], hne, hall, Or.inr rfl⟩
    · exact absurd h (by simp)

theorem extract_filename_shape (text fn : String) (c t : Nat)
    (h : extract_filename_and_page_info text = some (fn, c, t)) :
    GoodFilename fn := by
  obtain ⟨line, _, hline⟩ := List.exists_of_findSome?_eq_some h
  exact lineFilenameAndPage_shape line fn c t hline

/-- Every entry of `pageData` carries a header-pattern filename. -/
theorem pageData_goodFn (pts : List String) :
    ∀ e ∈ pageData pts, GoodFilename e.1 := by
  intro e he
  obtain ⟨text, _, hsome⟩ := List.mem_filterMap.mp he
  by_cases h0 : text = ""
  · rw [if_pos h0] at hsome
    exact absurd hsome (by simp)
  · rw [if_neg h0] at hsome
    cases hinfo : extract_filename_and_page_info text with
    | none => rw [hinfo] at hsome; exact absurd hsome (by simp)
    | some v =>
      obtain ⟨fn, cur, tot⟩ := v
      rw [hinfo] at hsome
      have hsome' : (if preprocess_page_text text = "" then none
          else some (fn, (if cur = 0 then 1 else cur), (if tot = 0 then 1 else tot),
            preprocess_page_text text)) = some e := hsome
      by_cases hcl : preprocess_page_text text = ""
      · rw [if_pos hcl] at hsome'
        exact absurd hsome' (by simp)
      · rw [if_neg hcl] at hsome'
        have he1 : e.1 = fn := by rw [← Option.some.inj hsome']
        rw [he1]
        exact extract_filename_shape text fn cur tot hinfo

theorem mem_addPage_keys (g : String) (p : Nat × String) :
    ∀ (m : List (String × List (Nat × String))) (x : String × List (Nat × String)),
      x ∈ addPage m g p → x.1 = g ∨ x.1 ∈ m.map Prod.fst := by
  intro m
  induction m with
  | nil =>
    intro x hx
    rw [List.mem_singleton.mp hx]
    exact Or.inl rfl
  | cons e rest ih =>
    intro x hx
    obtain ⟨k, ps⟩ := e
    unfold addPage at hx
    split at hx
    · rename_i hkg
      rcases List.mem_cons.mp hx with rfl | hmem
      · exact Or.inl hkg
      · exact Or.inr (List.mem_map.mpr ⟨x, List.mem_cons_of_mem _ hmem, rfl⟩)
    · rcases List.mem_cons.mp hx with rfl | hmem
      · exact Or.inr (by simp)
      · rcases ih x hmem with h | h
        · exact Or.inl h
        · exact Or.inr (by simp [h])

theorem groupPages_keys (pd : List (String × Nat × Nat × String)) :
    ∀ (m : List (String × List (Nat × String))) (x : String × List (Nat × String)),
      x ∈ pd.foldl (fun m e => addPage m e.1 (e.2.1, e.2.2.2)) m →
      x.1 ∈ pd.map Prod.fst ∨ x.1 ∈ m.map Prod.fst := by
  induction pd with
  | nil => intro m x hx; exact Or.inr (List.mem_map.mpr ⟨x, hx, rfl⟩)
  | cons e rest ih =>
    intro m x hx
    rw [List.foldl_cons] at hx
    rcases ih _ x hx with h | h
    · exact Or.inl (by simp [h])
    · obtain ⟨y, hy, hyx⟩ := List.mem_map.mp h
      rcases mem_addPage_keys e.1 _ m y hy with h' | h'
      · exact Or.inl (by simp [← hyx, h'])
      · exact Or.inr (hyx ▸ h')

/-- Every key of the merged-file map is the filename of some page entry. -/
theorem merge_keys (pd : List (String × Nat × Nat × String))
    (x : String × String) (hx : x ∈ merge_multipage_files pd) :
    ∃ e ∈ pd, e.1 = x.1 := by
  obtain ⟨y, hy, hyx⟩ := List.mem_map.mp hx
  have h1 : y.1 ∈ pd.map Prod.fst ∨
      y.1 ∈ ([] : List (String × List (Nat × String))).map Prod.fst :=
    groupPages_keys pd [] y hy
  rcases h1 with h1 | h1
  · obtain ⟨e, he, hey⟩ := List.mem_map.mp h1
    exact ⟨e, he, by rw [hey, ← hyx]⟩
  · exact absurd h1 (by simp)

theorem digitChar_word (n : Nat) (h : n < 10) : isWordChar (digitChar n) = true := by
  interval_cases n <;> decide

theorem natToDigits_word :
    ∀ (fuel n : Nat), (natToDigits fuel n).all isWordChar = true := by
  intro fuel
  induction fuel with
  | zero => intro n; rfl
  | succ fuel ih =>
    intro n
    unfold natToDigits
    split
    · rename_i hlt
      simp [digitChar_word n hlt]
    · simp [List.all_append, ih, digitChar_word (n % 10) (Nat.mod_lt _ (by norm_num))]

theorem isWordChar_ne_dot (c : Char) (h : isWordChar c = true) : ¬(c = '.') := by
  intro hc
  rw [hc] at h
  simp [isWordChar] at h

theorem isWordChar_ne_slash (c : Char) (h : isWordChar c = true) : ¬(c = '/') := by
  intro hc
  rw [hc] at h
  simp [isWordChar] at h

theorem rsplitDot_append (run ew : List Char)
    (_hrun : ∀ c ∈ run, ¬(c = '.')) (hew : ∀ c ∈ ew, ¬(c = '.')) :
    rsplitDot (run ++ '.' :: ew) = (run, ew) := by
  have hrev : (run ++ '.' :: ew).reverse = ew.reverse ++ '.' :: run.reverse := by
    simp
  have hp : ∀ c ∈ ew.reverse, (fun c => !(c = '.')) c = true := by
    intro c hc
    simp [hew c (List.mem_reverse.mp hc)]
  have hdot : (fun c => !(c = '.')) '.' = false := by simp
  have hdrop : (run ++ '.' :: ew).reverse.dropWhile (fun c => !(c = '.')) =
      '.' :: run.reverse := by
    rw [hrev]
    exact dropWhile_append_of_all _ _ _ _ hp hdot
  have htake : (run ++ '.' :: ew).reverse.takeWhile (fun c => !(c = '.')) =
      ew.reverse := by
    rw [hrev]
    exact takeWhile_append_of_all _ _ _ _ hp hdot
  unfold rsplitDot
  rw [hdrop, htake]
  simp

theorem good_suffixedName (fn : String) (hg : GoodFilename fn) (k : Nat) :
    GoodFilename (suffixedName fn k) := by
  obtain ⟨run, ext, hdata, hne, hall, hcase⟩ := hg
  have hword : ∀ c ∈ run, isWordChar c = true := List.all_eq_true.mp hall
  have hrunDot : ∀ c ∈ run, ¬(c = '.') := fun c hc => isWordChar_ne_dot c (hword c hc)
  rcases hcase with hjava | hphp
  · have hsplit : rsplitDot fn.data = (run, "java".data) := by
      rw [hdata, hjava]
      exact rsplitDot_append run ("java".data) hrunDot (by decide)
    refine ⟨run ++ '_' :: natToStr k, (".java").data, ?_, by simp, ?_, Or.inl rfl⟩
    · show (rsplitDot fn.data).1 ++ '_' :: natToStr k ++ '.' :: (rsplitDot fn.data).2 = _
      rw [hsplit]
    · rw [List.all_eq_true]
      intro c hc
      rcases List.mem_append.mp hc with hc | hc
      · exact hword c hc
      · rcases List.mem_cons.mp hc with rfl | hc
        · decide
        · exact List.all_eq_true.mp (natToDigits_word (k + 1) k) c hc
  · have hsplit : rsplitDot fn.data = (run, "php".data) := by
      rw [hdata, hphp]
      exact rsplitDot_append run ("php".data) hrunDot (by decide)
    refine ⟨run ++ '_' :: natToStr k, (".php").data, ?_, by simp, ?_, Or.inr rfl⟩
    · show (rsplitDot fn.data).1 ++ '_' :: natToStr k ++ '.' :: (rsplitDot fn.data).2 = _
      rw [hsplit]
    · rw [List.all_eq_true]
      intro c hc
      rcases List.mem_append.mp hc with hc | hc
      · exact hword c hc
      · rcases List.mem_cons.mp hc with rfl | hc
        · decide
        · exact List.all_eq_true.mp (natToDigits_word (k + 1) k) c hc

theorem lastComp_no_slash (l : List Char) (h : ∀ c ∈ l, ¬(c = '/')) :
    lastComp l = l := by
  unfold lastComp
  rw [takeWhile_of_all _ l.reverse
    (fun c hc => by simp [h c (List.mem_reverse.mp hc)])]
  exact List.reverse_reverse l

theorem lastComp_append (a b : List Char) (hb : ∀ c ∈ b, ¬(c = '/')) :
    lastComp (a ++ '/' :: b) = b := by
  unfold lastComp
  have hrev : (a ++ '/' :: b).reverse = b.reverse ++ '/' :: a.reverse := by simp
  rw [hrev, takeWhile_append_of_all _ _ _ b.reverse
    (fun c hc => by simp [hb c (List.mem_reverse.mp hc)]) (by simp)]
  exact List.reverse_reverse b

theorem goodStemExt_append (run ext : List Char) (hne : run ≠ [])
    (hall : run.all isWordChar = true) :
    goodStemExt (run ++ ext) ext = true := by
  unfold goodStemExt listEndsWith
  have h1 : listStartsWith (run ++ ext).reverse ext.reverse = true := by
    rw [List.reverse_append]
    exact listStartsWith_append _ _
  have h2 : (run ++ ext).length - ext.length = run.length := by
    simp [List.length_append]
  rw [h1, h2, List.take_left]
  simp [List.isEmpty_iff, hne, hall]

theorem validLeaf_of_good (fn : String) (h : GoodFilename fn) :
    validLeafName fn.data = true := by
  obtain ⟨run, ext, hdata, hne, hall, hcase⟩ := h
  rw [hdata]
  unfold validLeafName
  rcases hcase with rfl | rfl
  · rw [goodStemExt_append run _ hne hall]
    simp
  · rw [goodStemExt_append run _ hne hall]
    simp

theorem goodFilename_no_slash (fn : String) (h : GoodFilename fn) :
    ∀ c ∈ fn.data, ¬(c = '/') := by
  obtain ⟨run, ext, hdata, _, hall, hcase⟩ := h
  intro c hc
  rw [hdata] at hc
  rcases List.mem_append.mp hc with hc | hc
  · exact isWordChar_ne_slash c (List.all_eq_true.mp hall c hc)
  · rcases hcase with rfl | rfl
    · have hj : ∀ x ∈ (".java").data, ¬(x = '/') := by decide
      exact hj c hc
    · have hp : ∀ x ∈ (".php").data, ¬(x = '/') := by decide
      exact hp c hc

/-- The last path component of a resolved relative path is the filename
itself: package/namespace prefixing only adds directories before it. -/
theorem build_path_lastComp (fn code : String) (hfn : ∀ c ∈ fn.data, ¬(c = '/')) :
    lastComp ((build_relative_path fn code).data) = fn.data := by
  unfold build_relative_path
  split
  · split
    · exact lastComp_append _ _ hfn
    · exact lastComp_no_slash _ hfn
  · split
    · split
      · exact lastComp_append _ _ hfn
      · exact lastComp_no_slash _ hfn
    · exact lastComp_no_slash _ hfn

/-- Every path produced by the collision loop is the resolved path of the
original filename or of one of its `_k`-suffixed variants. -/
theorem dedupLoop_shape (sources : List (String × String)) (fn code : String)
    (hgood : GoodFilename fn) :
    ∀ (fuel k : Nat) (path : String),
      (∃ g : String, GoodFilename g ∧ path = build_relative_path g code) →
      ∃ g : String, GoodFilename g ∧
        dedupLoop sources fn code fuel k path = build_relative_path g code := by
  intro fuel
  induction fuel with
  | zero => intro k path hp; exact hp
  | succ fuel ih =>
    intro k path hp
    unfold dedupLoop
    split
    · exact ih (k + 1) _ ⟨suffixedName fn (k + 1), good_suffixedName fn hgood (k + 1), rfl⟩
    · exact hp

theorem mem_processMerged_key (s : List (String × String)) (e x : String × String)
    (hx : x ∈ processMerged s e) :
    x ∈ s ∨ ∃ cb : String,
      x.1 = dedupLoop s e.1 cb (s.length + 2) 1 (build_relative_path e.1 cb) := by
  unfold processMerged at hx
  split at hx
  · exact Or.inl hx
  · split at hx
    · exact Or.inl hx
    · rename_i cb _
      rcases List.mem_append.mp hx with hmem | hmem
      · exact Or.inl hmem
      · exact Or.inr ⟨cb, by rw [List.mem_singleton.mp hmem]⟩

theorem foldl_processMerged_keys (ms : List (String × String)) :
    ∀ init : List (String × String),
      (∀ e ∈ ms, GoodFilename e.1) →
      (∀ x ∈ init, validLeafName (lastComp x.1.data) = true) →
      ∀ x ∈ ms.foldl processMerged init, validLeafName (lastComp x.1.data) = true := by
  induction ms with
  | nil => intro init _ hinit x hx; exact hinit x hx
  | cons e rest ih =>
    intro init hms hinit x hx
    refine ih (processMerged init e)
      (fun e' he' => hms e' (List.mem_cons_of_mem e he')) ?_ x hx
    intro y hy
    rcases mem_processMerged_key init e y hy with hmem | ⟨cb, hkey⟩
    · exact hinit y hmem
    · have hgood := hms e (List.mem_cons_self e rest)
      obtain ⟨g, hg, hpath⟩ := dedupLoop_shape init e.1 cb hgood (init.length + 2) 1
        (build_relative_path e.1 cb) ⟨e.1, hgood, rfl⟩
      rw [hkey, hpath, build_path_lastComp g cb (goodFilename_no_slash g hg)]
      exact validLeaf_of_good g hg

/-- C10: every key of the map returned by `extract_sources_from_pages` has
a final path component of shape `<stem>.java` or `<stem>.php` with a
nonempty stem of ASCII letters, digits and underscores: keys are built from
header filenames matched by the `[A-Za-z0-9_]+\.java` / `[A-Za-z0-9_]+\.php`
patterns (possibly `_k`-suffixed by the deduplicator) with only
package/namespace directories prefixed. -/
theorem claim_c10_key_leaf_shape (pts : List String) (p v : String)
    (h : (p, v) ∈ extract_sources_from_pages pts) :
    validLeafName (lastComp p.data) = true := by
  refine foldl_processMerged_keys (merge_multipage_files (pageData pts)) []
    ?_ ?_ (p, v) h
  · intro e he
    obtain ⟨e', he', heq⟩ := merge_keys _ e he
    have hg := pageData_goodFn pts e' he'
    rw [heq] at hg
    exact hg
  · intro x hx
    exact absurd hx (List.not_mem_nil x)

theorem claim_c10_key_leaf_shape_witness :
    ("zoo/Animal.java", "package zoo;\npublic class Animal \x7b\n\x7d\n") ∈
      extract_sources_from_pages
        ["Animal.java\npackage zoo;\npublic class Animal \x7b\n\x7d"] ∧
    validLeafName (lastComp ("zoo/Animal.java").data) = true :=
  ⟨by decide,
    claim_c10_key_leaf_shape
      ["Animal.java\npackage zoo;\npublic class Animal \x7b\n\x7d"]
      "zoo/Animal.java" "package zoo;\npublic class Animal \x7b\n\x7d\n" (by decide)⟩
